import Mathlib

/-!
# Verification of the ANN priority k-NN search core (`kd_pr_search.cpp`)

Shallow embedding of `src/lib/ann_1.1_char_fast/src/kd_pr_search.cpp`:
`ANNkd_tree::annkPriSearch`, `ANNkd_split::ann_pri_search` and
`ANNkd_leaf::ann_pri_search`.  Coordinates (`ANNcoord`) and distances
(`ANNdist`) are integers in this `char` variant of the library; they are
embedded as `Int`.  The error factor `ANNprMaxErr` is a C++ `double`; it is
embedded as `ℚ`.

Collaborator code that is not under `src/` (the `ANNmin_k` candidate set,
the `ANNpr_queue` box priority queue, `annBoxDistance`, and the `ANN_POW`,
`ANN_SUM`, `ANN_DIFF` macros) is modelled from the specification, as marked
on each such definition.
-/

namespace AnnPr

/-- Modelled from the spec: the macro header defining `ANN_POW` is not under
`src/`.  All distances are squared Euclidean, so `ANN_POW x = x * x`. -/
def ANN_POW {α : Type} [Mul α] (x : α) : α := x * x

/-- Modelled from the spec: the macro header defining `ANN_SUM` is not under
`src/`.  For the (squared) Euclidean metric `ANN_SUM` is addition. -/
def ANN_SUM {α : Type} [Add α] (x y : α) : α := x + y

/-- Modelled from the spec: the macro header defining `ANN_DIFF` is not under
`src/`.  The spec states the incremental update computed at the call site
`ANN_SUM(box_dist, ANN_DIFF(ANN_POW(box_diff), ANN_POW(cut_diff)))` is
`fartherDist = boxDist − cutDiff² + boxDiff²`, which fixes
`ANN_DIFF x y = x - y`. -/
def ANN_DIFF {α : Type} [Sub α] (x y : α) : α := x - y

/-- A kd-tree node (`ANNkd_split` / `ANNkd_leaf`).  `trivial` stands for the
shared empty-leaf sentinel `KD_TRIVIAL` (a leaf whose bucket is empty); the
split handler compares children against it by identity before enqueueing.
A split node stores the cutting dimension `cut_dim`, the cutting value
`cut_val`, its bounds `cd_bnds[ANN_LO]`/`cd_bnds[ANN_HI]` along the cutting
dimension, and the two children `child[ANN_LO]`/`child[ANN_HI]`. -/
inductive KdNode : Type where
  | trivial : KdNode
  | leaf (bkt : List Nat) : KdNode
  | split (cut_dim : Nat) (cut_val : Int) (bnd_lo bnd_hi : Int)
      (lo hi : KdNode) : KdNode
deriving DecidableEq

/-- Number of nodes of a (sub)tree; used to bound the traversal loop. -/
def nodeSize : KdNode → Nat
  | .trivial => 1
  | .leaf _ => 1
  | .split _ _ _ _ lo hi => 1 + nodeSize lo + nodeSize hi

/-- Largest leaf-bucket size in a (sub)tree. -/
def maxBucket : KdNode → Nat
  | .trivial => 0
  | .leaf bkt => bkt.length
  | .split _ _ _ _ lo hi => max (maxBucket lo) (maxBucket hi)

/-- Modelled from the spec: `ANNmin_k` (the BoundedNearestSet) is not under
`src/`.  Per the spec it is a fixed-capacity sorted container of the `k`
best `(distance, index)` pairs; `elems` is kept sorted ascending by
distance, with length at most `k`. -/
structure MinK : Type where
  k : Nat
  elems : List (Int × Nat)
deriving DecidableEq

/-- The empty candidate set of capacity `k`. -/
def MinK.empty (k : Nat) : MinK := ⟨k, []⟩

/-- Modelled from the spec: `max_key()` returns the current worst distance
among the held entries, or `+∞` if under capacity.  `none` stands for the
infinite sentinel `ANN_DIST_INF`. -/
def MinK.max_key (s : MinK) : Option Int :=
  if s.elems.length < s.k then none
  else match s.elems.getLast? with
    | some e => some e.1
    | none => none

/-- Comparison `d < m` where `m` may be the infinite sentinel (`none`). -/
def distLtKey (d : Int) (m : Option Int) : Bool :=
  match m with
  | none => true
  | some v => decide (d < v)

/-- Comparison `d > m` where `m` may be the infinite sentinel (`none`). -/
def distGtKey (d : Int) (m : Option Int) : Bool :=
  match m with
  | none => false
  | some v => decide (v < d)

/-- Insert into a distance-sorted list, placing a new pair after any pair
with an equal distance. -/
def insortPair (e : Int × Nat) : List (Int × Nat) → List (Int × Nat)
  | [] => [e]
  | x :: xs => if e.1 < x.1 then e :: x :: xs else x :: insortPair e xs

/-- Modelled from the spec: `BoundedNearestSet.insert` — if fewer than `k`
entries are held, add (keeping the list sorted); otherwise, if the new
distance is strictly less than the current maximum held, replace that
maximum entry. -/
def MinK.insert (s : MinK) (d : Int) (i : Nat) : MinK :=
  if s.elems.length < s.k then ⟨s.k, insortPair (d, i) s.elems⟩
  else if distLtKey d s.max_key then ⟨s.k, (insortPair (d, i) s.elems).dropLast⟩
  else s

/-- Modelled from the spec: `ith_smallest` key — the `i`-th distance in
ascending order, or the `+∞` sentinel when fewer entries are held. -/
def MinK.ith_smallest_key (s : MinK) (i : Nat) : Option Int :=
  (s.elems[i]?).map Prod.fst

/-- Modelled from the spec: `ith_smallest` index — the `i`-th point index in
ascending distance order, or the invalid-index sentinel (`none`). -/
def MinK.ith_smallest_info (s : MinK) (i : Nat) : Option Nat :=
  (s.elems[i]?).map Prod.snd

/-- Modelled from the spec: `ANNpr_queue` (the BoxPriorityQueue) is not
under `src/`.  It is embedded as a list of `(priority, node)` entries;
`extr_min` removes a minimum-priority entry (ties resolved to the earliest
inserted, refining the unspecified heap tie order). -/
def extrMin : List (Int × KdNode) → Option ((Int × KdNode) × List (Int × KdNode))
  | [] => none
  | e :: rest =>
    match extrMin rest with
    | none => some (e, [])
    | some (m, rest2) => if e.1 ≤ m.1 then some (e, rest) else some (m, e :: rest2)

/-- The per-query state `ANNprTempStore` fields that are fixed for the whole
call: query point, flat point-coordinate array, dimension, error factor and
the visited-point budget `ANNmaxPtsVisited` (0 = unbounded).  `ANNprDim` is
stored, but the hard-coded leaf scan never reads it. -/
structure SearchCtx : Type where
  q : List Int
  pts : List Int
  dim : Nat
  maxErr : ℚ
  maxPts : Nat

/-- The mutable per-query state threaded through the search: the candidate
set `ANNprPointMK`, the box priority queue `ANNprBoxPQ` and the
visited-point counter `ANNptsVisited`. -/
structure Store : Type where
  pointMK : MinK
  pq : List (Int × KdNode)
  visited : Nat
deriving DecidableEq

/-- One 32-axis chunk of the leaf scan's squared-distance accumulation:
`for (d2 = 0; d2 < 32; d2++) { t = *(qq++) - *(pp++); dist = ANN_SUM(dist, ANN_POW(t)); }`
with `qq` starting at `q + start` and `pp` at `pts + base + start`. -/
def chunkSum (q pts : List Int) (base start : Nat) : Int :=
  ((List.range 32).map (fun d2 =>
    ANN_POW (q.getD (start + d2) 0 - pts.getD (base + start + d2) 0))).sum

/-- The chunked scan of one bucket point: chunks at the given start offsets
are accumulated; after each chunk, `if (dist > min_dist) break` abandons the
point (`none`).  Completing all chunks yields `some dist` (`d >= 4`). -/
def scanGo (q pts : List Int) (base : Nat) (minDist : Option Int) :
    List Nat → Int → Option Int
  | [], dist => some dist
  | s :: rest, dist =>
    let dist2 := dist + chunkSum q pts base s
    if distGtKey dist2 minDist then none
    else scanGo q pts base minDist rest dist2

/-- The full per-point scan of `ANNkd_leaf::ann_pri_search`: 4 chunks of 32
axes (`for (d = 0; d < 4; d++) for (d2 = 0; d2 < 32; d2++) ...`), a constant
128 axes in all, starting from `pp = ANNprPts + bkt[i] * 128`. -/
def scanPoint (q pts : List Int) (base : Nat) (minDist : Option Int) : Option Int :=
  scanGo q pts base minDist [0, 32, 64, 96] 0

/-- The bucket loop of `ANNkd_leaf::ann_pri_search`: each completed point is
inserted into the candidate set (the self-match test is commented out in the
source), and `min_dist` is refreshed from `max_key()` after each insert. -/
def leafGo (q pts : List Int) : List Nat → MinK → Option Int → MinK
  | [], mk, _ => mk
  | p :: rest, mk, minDist =>
    match scanPoint q pts (p * 128) minDist with
    | none => leafGo q pts rest mk minDist
    | some dist =>
      let mk2 := mk.insert dist p
      leafGo q pts rest mk2 mk2.max_key

/-- The leaf handler `ANNkd_leaf::ann_pri_search`: scan the bucket starting from
`min_dist = ANNprPointMK->max_key()`, then
`ANNptsVisited += n_pts` regardless of early abandonment.
The incoming box distance is unused by the leaf handler. -/
def leafSearch (ctx : SearchCtx) (bkt : List Nat) (st : Store) : Store :=
  { pointMK := leafGo ctx.q ctx.pts bkt st.pointMK st.pointMK.max_key
    pq := st.pq
    visited := st.visited + bkt.length }

/-- The recursive search `ann_pri_search` dispatched on the node kind, as the virtual call does:
`ANNkd_split::ann_pri_search` computes `cut_diff`, clamps `box_diff` at 0,
computes the farther child's distance with
`ANN_SUM(box_dist, ANN_DIFF(ANN_POW(box_diff), ANN_POW(cut_diff)))`,
enqueues the farther child unless it is `KD_TRIVIAL`, and recurses
immediately into the nearer child with the unchanged `box_dist`.
`KD_TRIVIAL` itself is an empty leaf, so searching it is a no-op. -/
def annPriSearchNode (ctx : SearchCtx) : KdNode → Int → Store → Store
  | .trivial, _, st => st
  | .leaf bkt, _, st => leafSearch ctx bkt st
  | .split cut_dim cut_val bnd_lo bnd_hi lo hi, box_dist, st =>
    let cut_diff : Int := ctx.q.getD cut_dim 0 - cut_val
    if cut_diff < 0 then
      let bd : Int := bnd_lo - ctx.q.getD cut_dim 0
      let box_diff : Int := if bd < 0 then 0 else bd
      let new_dist : Int :=
        ANN_SUM box_dist (ANN_DIFF (ANN_POW box_diff) (ANN_POW cut_diff))
      let st1 : Store :=
        if hi ≠ KdNode.trivial then
          { st with pq := st.pq ++ [(new_dist, hi)] }
        else st
      annPriSearchNode ctx lo box_dist st1
    else
      let bd : Int := ctx.q.getD cut_dim 0 - bnd_hi
      let box_diff : Int := if bd < 0 then 0 else bd
      let new_dist : Int :=
        ANN_SUM box_dist (ANN_DIFF (ANN_POW box_diff) (ANN_POW cut_diff))
      let st1 : Store :=
        if lo ≠ KdNode.trivial then
          { st with pq := st.pq ++ [(new_dist, lo)] }
        else st
      annPriSearchNode ctx hi box_dist st1

/-- The loop's break test
`box_dist * ANNprMaxErr >= ANNprPointMK->max_key()`, with the comparison in
`ℚ` (the error factor is a C++ `double`); against the infinite sentinel the
test is false. -/
def prTest (d : Int) (maxErr : ℚ) (pointMK : MinK) : Bool :=
  match pointMK.max_key with
  | none => false
  | some v => decide ((v : ℚ) ≤ (d : ℚ) * maxErr)

/-- The traversal loop of `annkPriSearch`:
`while (ANNprBoxPQ->non_empty() && !(ANNmaxPtsVisited != 0 && ANNptsVisited > ANNmaxPtsVisited))`
— extract the closest box, break when the error test fires, otherwise
dispatch to the split or leaf handler.  `fuel` is a modeling device bounding
the iteration count; `none` is returned only when it runs out, and
`searchLoop_isSome` below shows sufficient fuel exists. -/
def searchLoop (ctx : SearchCtx) : Nat → Store → Option Store
  | 0, _ => none
  | fuel + 1, st =>
    if ctx.maxPts ≠ 0 ∧ ctx.maxPts < st.visited then some st
    else
      match extrMin st.pq with
      | none => some st
      | some ((box_dist, np), rest) =>
        if prTest box_dist ctx.maxErr st.pointMK then some { st with pq := rest }
        else searchLoop ctx fuel (annPriSearchNode ctx np box_dist { st with pq := rest })

/-- Modelled from the spec: `annBoxDistance` (in `kd_util.cpp`) is not under
`src/`.  Per the spec, it is the squared distance from `q` to the root
bounding box, 0 if `q` lies inside it: on each axis the excess over the
nearer face, squared, summed over the `dim` axes. -/
def annBoxDistance (q lo hi : List Int) (dim : Nat) : Int :=
  ((List.range dim).map (fun d =>
    if q.getD d 0 < lo.getD d 0 then ANN_POW (lo.getD d 0 - q.getD d 0)
    else if hi.getD d 0 < q.getD d 0 then ANN_POW (q.getD d 0 - hi.getD d 0)
    else 0)).sum

/-- The fields of `ANNkd_tree` read by `annkPriSearch`: dimension, point
count, the flat coordinate array `pts`, the root node and the root bounding
box. -/
structure ANNkd_tree : Type where
  dim : Nat
  n_pts : Nat
  pts : List Int
  root : KdNode
  bnd_box_lo : List Int
  bnd_box_hi : List Int

/-- The outputs written by `annkPriSearch`: `dd[i]` (squared distances;
`none` is the `+∞` sentinel), `nn_idx[i]` (`none` is the invalid-index
sentinel) and the final visited-point count. -/
structure SearchResult : Type where
  dd : List (Option Int)
  nn_idx : List (Option Nat)
  visited : Nat
deriving DecidableEq

/-- The entry point `ANNkd_tree::annkPriSearch`: set up the per-call store with
`ANNprMaxErr = ANN_POW(1.0 + eps)`, seed the queue with
`(annBoxDistance(q, bnd_box_lo, bnd_box_hi, dim), root)`, run the traversal
loop, then write the `k` smallest keys and indices.  `maxPts` embeds the
global `ANNmaxPtsVisited` (0 = unbounded).  The fuel `nodeSize root + 1`
is sufficient (`annkPriSearch_isSome` below), so the result is never
`none`. -/
def annkPriSearch (t : ANNkd_tree) (q : List Int) (k : Nat) (eps : ℚ)
    (maxPts : Nat) : Option SearchResult :=
  let ctx : SearchCtx :=
    { q := q, pts := t.pts, dim := t.dim, maxErr := ANN_POW (1 + eps), maxPts := maxPts }
  let box_dist := annBoxDistance q t.bnd_box_lo t.bnd_box_hi t.dim
  let st0 : Store := { pointMK := MinK.empty k, pq := [(box_dist, t.root)], visited := 0 }
  (searchLoop ctx (nodeSize t.root + 1) st0).map (fun st =>
    { dd := (List.range k).map st.pointMK.ith_smallest_key
      nn_idx := (List.range k).map st.pointMK.ith_smallest_info
      visited := st.visited })

/-!
## Brute-force reference definitions

These follow the spec's words (for the comparison the exactness claim asks
for), not the source: the squared Euclidean distance over the configured
dimension `D`, and the `k` smallest such distances computed by brute
force. -/

/-- Following the spec: squared Euclidean distance over `dim` axes between
`q` and the point whose coordinates start at `base` in the flat array. -/
def sqDistAt (dim : Nat) (q pts : List Int) (base : Nat) : Int :=
  ((List.range dim).map (fun j =>
    ANN_POW (q.getD j 0 - pts.getD (base + j) 0))).sum

/-- Following the spec: the list of all point-to-query squared distances of
an `n`-point, `dim`-dimensional data set laid out at stride `dim`. -/
def bruteDists (dim n : Nat) (q pts : List Int) : List Int :=
  (List.range n).map (fun i => sqDistAt dim q pts (i * dim))

/-- Sorted insertion for the brute-force reference. -/
def insortInt (x : Int) : List Int → List Int
  | [] => [x]
  | y :: ys => if x ≤ y then x :: y :: ys else y :: insortInt x ys

/-- Insertion sort for the brute-force reference. -/
def sortInts : List Int → List Int
  | [] => []
  | x :: xs => insortInt x (sortInts xs)

/-- Following the spec: the `k` smallest squared distances, by brute
force. -/
def bruteKSmallest (dim n k : Nat) (q pts : List Int) : List Int :=
  (sortInts (bruteDists dim n q pts)).take k




/-- Total node count of the subtrees held in a priority queue; bounds the
traversal loop. -/
def pqMeasure (pq : List (Int × KdNode)) : Nat :=
  (pq.map (fun e => nodeSize e.2)).sum

/-!
## Concrete scenario data

Small concrete indexes used to evaluate the embedded search on the inputs
the claims speak about.
-/

/-- A 132-dimensional 2-point data set laid out flat at stride 132:
point 0 is 0 on its first 128 axes and 5 on its last 4; point 1 is 1 on all
132 axes. -/
def c1pts : List Int :=
  (List.replicate 128 0 ++ List.replicate 4 5) ++ List.replicate 132 1

/-- The origin query of dimension 132. -/
def c1q : List Int := List.replicate 132 0

/-- The 132-dimensional index over `c1pts`, both points in one leaf. -/
def c1tree : ANNkd_tree :=
  { dim := 132, n_pts := 2, pts := c1pts, root := .leaf [0, 1],
    bnd_box_lo := List.replicate 132 0, bnd_box_hi := List.replicate 132 5 }

/-- A single 256-dimensional point, flat: 0 on the first 128 axes, 1 on the
last 128. -/
def c2pts : List Int := List.replicate 128 0 ++ List.replicate 128 1

/-- The origin query of dimension 256. -/
def c2q : List Int := List.replicate 256 0

/-- A 2-point, 128-dimensional index with both points in a single leaf
bucket, as the tree builder produces for any 2-point set with the usual
bucket capacity. -/
def twoPointLeafTree (p0 p1 : List Int) : ANNkd_tree :=
  { dim := 128, n_pts := 2, pts := p0 ++ p1, root := .leaf [0, 1],
    bnd_box_lo := p0, bnd_box_hi := p0 }

/-- Stored point 0 for the self-match scenario. -/
def c4p0 : List Int := List.replicate 128 3

/-- Stored point 1 for the self-match scenario. -/
def c4p1 : List Int := List.replicate 128 5

/-- An index whose single leaf holds `m` points (all coordinates default);
only the visited-point accounting matters for its uses. -/
def bigLeafTree (m : Nat) : ANNkd_tree :=
  { dim := 128, n_pts := m, pts := [], root := .leaf (List.range m),
    bnd_box_lo := [], bnd_box_hi := [] }

/-- A one-point, 128-dimensional index for the validation scenario. -/
def c7tree : ANNkd_tree :=
  { dim := 128, n_pts := 1, pts := List.replicate 128 2,
    root := .leaf [0], bnd_box_lo := List.replicate 128 2,
    bnd_box_hi := List.replicate 128 2 }

/-- The query used in the validation scenario. -/
def c7q : List Int := List.replicate 128 2

/-!
## Helper lemmas
-/

/-- Every node counts at least itself. -/
theorem nodeSize_pos (n : KdNode) : 1 ≤ nodeSize n := by
  cases n <;> (simp only [nodeSize]; omega)

theorem pqMeasure_append (a b : List (Int × KdNode)) :
    pqMeasure (a ++ b) = pqMeasure a + pqMeasure b := by
  simp [pqMeasure]

/-- Unfolding of the split handler when the query is left of the cutting
plane: the farther (high) child is enqueued unless trivial, and the search
continues immediately in the nearer (low) child with the same box
distance. -/
theorem annPriSearchNode_split_lt (ctx : SearchCtx) (cut_dim : Nat)
    (cut_val bnd_lo bnd_hi : Int) (lo hi : KdNode) (box_dist : Int) (st : Store)
    (h : ctx.q.getD cut_dim 0 - cut_val < 0) :
    annPriSearchNode ctx (.split cut_dim cut_val bnd_lo bnd_hi lo hi) box_dist st =
      annPriSearchNode ctx lo box_dist
        (if hi ≠ KdNode.trivial then
          { st with pq := st.pq ++ [(ANN_SUM box_dist (ANN_DIFF
              (ANN_POW (if bnd_lo - ctx.q.getD cut_dim 0 < 0 then 0
                else bnd_lo - ctx.q.getD cut_dim 0))
              (ANN_POW (ctx.q.getD cut_dim 0 - cut_val))), hi)] }
        else st) := by
  simp only [annPriSearchNode]
  rw [if_pos h]

/-- Unfolding of the split handler when the query is right of (or on) the
cutting plane: the farther (low) child is enqueued unless trivial, and the
search continues immediately in the nearer (high) child with the same box
distance. -/
theorem annPriSearchNode_split_ge (ctx : SearchCtx) (cut_dim : Nat)
    (cut_val bnd_lo bnd_hi : Int) (lo hi : KdNode) (box_dist : Int) (st : Store)
    (h : ¬(ctx.q.getD cut_dim 0 - cut_val < 0)) :
    annPriSearchNode ctx (.split cut_dim cut_val bnd_lo bnd_hi lo hi) box_dist st =
      annPriSearchNode ctx hi box_dist
        (if lo ≠ KdNode.trivial then
          { st with pq := st.pq ++ [(ANN_SUM box_dist (ANN_DIFF
              (ANN_POW (if ctx.q.getD cut_dim 0 - bnd_hi < 0 then 0
                else ctx.q.getD cut_dim 0 - bnd_hi))
              (ANN_POW (ctx.q.getD cut_dim 0 - cut_val))), lo)] }
        else st) := by
  simp only [annPriSearchNode]
  rw [if_neg h]

/-- Structure of a node search: the handler only appends to the box queue,
the appended subtrees are strictly smaller than the dispatched node, and
their buckets are bounded by the dispatched node's. -/
theorem annPriSearchNode_pq (ctx : SearchCtx) (n : KdNode) (d : Int) (st : Store) :
    ∃ ex, (annPriSearchNode ctx n d st).pq = st.pq ++ ex ∧
      pqMeasure ex + 1 ≤ nodeSize n ∧
      ∀ e ∈ ex, maxBucket e.2 ≤ maxBucket n := by
  induction n generalizing d st with
  | trivial =>
    exact ⟨[], by simp [annPriSearchNode], by simp [nodeSize, pqMeasure], by simp⟩
  | leaf bkt =>
    exact ⟨[], by simp [annPriSearchNode, leafSearch],
      by simp [nodeSize, pqMeasure], by simp⟩
  | split cut_dim cut_val bnd_lo bnd_hi lo hi ihlo ihhi =>
    have hns : nodeSize (KdNode.split cut_dim cut_val bnd_lo bnd_hi lo hi) =
        1 + nodeSize lo + nodeSize hi := rfl
    have hmb : maxBucket (KdNode.split cut_dim cut_val bnd_lo bnd_hi lo hi) =
        max (maxBucket lo) (maxBucket hi) := rfl
    by_cases hcd : ctx.q.getD cut_dim 0 - cut_val < 0
    · rw [annPriSearchNode_split_lt ctx cut_dim cut_val bnd_lo bnd_hi lo hi d st hcd]
      by_cases hhi : hi ≠ KdNode.trivial
      · rw [if_pos hhi]
        obtain ⟨ex, hpq, hsz, hbk⟩ := ihlo d
          { st with pq := st.pq ++ [(ANN_SUM d (ANN_DIFF
              (ANN_POW (if bnd_lo - ctx.q.getD cut_dim 0 < 0 then 0
                else bnd_lo - ctx.q.getD cut_dim 0))
              (ANN_POW (ctx.q.getD cut_dim 0 - cut_val))), hi)] }
        refine ⟨[(ANN_SUM d (ANN_DIFF
              (ANN_POW (if bnd_lo - ctx.q.getD cut_dim 0 < 0 then 0
                else bnd_lo - ctx.q.getD cut_dim 0))
              (ANN_POW (ctx.q.getD cut_dim 0 - cut_val))), hi)] ++ ex, ?_, ?_, ?_⟩
        · rw [hpq]
          simp
        · rw [pqMeasure_append, hns]
          have hone : pqMeasure [(ANN_SUM d (ANN_DIFF
              (ANN_POW (if bnd_lo - ctx.q.getD cut_dim 0 < 0 then 0
                else bnd_lo - ctx.q.getD cut_dim 0))
              (ANN_POW (ctx.q.getD cut_dim 0 - cut_val))), hi)] = nodeSize hi := by
            simp [pqMeasure]
          rw [hone]
          omega
        · intro e he
          rw [hmb]
          rcases List.mem_append.1 he with h1 | h2
          · simp only [List.mem_singleton] at h1
            subst h1
            exact le_max_right _ _
          · exact le_trans (hbk e h2) (le_max_left _ _)
      · rw [if_neg hhi]
        obtain ⟨ex, hpq, hsz, hbk⟩ := ihlo d st
        refine ⟨ex, hpq, ?_, ?_⟩
        · rw [hns]
          have := nodeSize_pos hi
          omega
        · intro e he
          rw [hmb]
          exact le_trans (hbk e he) (le_max_left _ _)
    · rw [annPriSearchNode_split_ge ctx cut_dim cut_val bnd_lo bnd_hi lo hi d st hcd]
      by_cases hlo : lo ≠ KdNode.trivial
      · rw [if_pos hlo]
        obtain ⟨ex, hpq, hsz, hbk⟩ := ihhi d
          { st with pq := st.pq ++ [(ANN_SUM d (ANN_DIFF
              (ANN_POW (if ctx.q.getD cut_dim 0 - bnd_hi < 0 then 0
                else ctx.q.getD cut_dim 0 - bnd_hi))
              (ANN_POW (ctx.q.getD cut_dim 0 - cut_val))), lo)] }
        refine ⟨[(ANN_SUM d (ANN_DIFF
              (ANN_POW (if ctx.q.getD cut_dim 0 - bnd_hi < 0 then 0
                else ctx.q.getD cut_dim 0 - bnd_hi))
              (ANN_POW (ctx.q.getD cut_dim 0 - cut_val))), lo)] ++ ex, ?_, ?_, ?_⟩
        · rw [hpq]
          simp
        · rw [pqMeasure_append, hns]
          have hone : pqMeasure [(ANN_SUM d (ANN_DIFF
              (ANN_POW (if ctx.q.getD cut_dim 0 - bnd_hi < 0 then 0
                else ctx.q.getD cut_dim 0 - bnd_hi))
              (ANN_POW (ctx.q.getD cut_dim 0 - cut_val))), lo)] = nodeSize lo := by
            simp [pqMeasure]
          rw [hone]
          omega
        · intro e he
          rw [hmb]
          rcases List.mem_append.1 he with h1 | h2
          · simp only [List.mem_singleton] at h1
            subst h1
            exact le_max_left _ _
          · exact le_trans (hbk e h2) (le_max_right _ _)
      · rw [if_neg hlo]
        obtain ⟨ex, hpq, hsz, hbk⟩ := ihhi d st
        refine ⟨ex, hpq, ?_, ?_⟩
        · rw [hns]
          have := nodeSize_pos lo
          omega
        · intro e he
          rw [hmb]
          exact le_trans (hbk e he) (le_max_right _ _)

/-- A node search grows the visited counter by at most the largest bucket of
the dispatched subtree. -/
theorem annPriSearchNode_visited (ctx : SearchCtx) (n : KdNode) (d : Int) (st : Store) :
    (annPriSearchNode ctx n d st).visited ≤ st.visited + maxBucket n := by
  induction n generalizing d st with
  | trivial => simp [annPriSearchNode, maxBucket]
  | leaf bkt => simp [annPriSearchNode, leafSearch, maxBucket]
  | split cut_dim cut_val bnd_lo bnd_hi lo hi ihlo ihhi =>
    have hmb : maxBucket (KdNode.split cut_dim cut_val bnd_lo bnd_hi lo hi) =
        max (maxBucket lo) (maxBucket hi) := rfl
    by_cases hcd : ctx.q.getD cut_dim 0 - cut_val < 0
    · rw [annPriSearchNode_split_lt ctx cut_dim cut_val bnd_lo bnd_hi lo hi d st hcd, hmb]
      by_cases hhi : hi ≠ KdNode.trivial
      · rw [if_pos hhi]
        refine le_trans (ihlo _ _) ?_
        simp only [Nat.add_le_add_iff_left]
        exact le_max_left _ _
      · rw [if_neg hhi]
        refine le_trans (ihlo _ _) ?_
        exact Nat.add_le_add_left (le_max_left _ _) _
    · rw [annPriSearchNode_split_ge ctx cut_dim cut_val bnd_lo bnd_hi lo hi d st hcd, hmb]
      by_cases hlo : lo ≠ KdNode.trivial
      · rw [if_pos hlo]
        refine le_trans (ihhi _ _) ?_
        simp only [Nat.add_le_add_iff_left]
        exact le_max_right _ _
      · rw [if_neg hlo]
        refine le_trans (ihhi _ _) ?_
        exact Nat.add_le_add_left (le_max_right _ _) _

/-- The minimum extraction fails exactly on the empty queue. -/
theorem extrMin_eq_none {pq : List (Int × KdNode)} :
    extrMin pq = none ↔ pq = [] := by
  cases pq with
  | nil => simp [extrMin]
  | cons e rest =>
    simp only [extrMin]
    cases h : extrMin rest with
    | none => simp
    | some p =>
      obtain ⟨m, rest2⟩ := p
      by_cases hle : e.1 ≤ m.1 <;> simp [hle]

/-- Extraction removes exactly one entry, so the queue measure splits. -/
theorem extrMin_measure {pq : List (Int × KdNode)} {e : Int × KdNode}
    {rest : List (Int × KdNode)} (h : extrMin pq = some (e, rest)) :
    pqMeasure pq = nodeSize e.2 + pqMeasure rest := by
  induction pq generalizing e rest with
  | nil => simp [extrMin] at h
  | cons x xs ih =>
    simp only [extrMin] at h
    split at h
    · next hx =>
      simp only [Option.some.injEq, Prod.mk.injEq] at h
      obtain ⟨he, hrest⟩ := h
      subst he
      subst hrest
      have hxs : xs = [] := extrMin_eq_none.1 hx
      subst hxs
      simp [pqMeasure]
    · next m rest2 hx =>
      split at h
      · simp only [Option.some.injEq, Prod.mk.injEq] at h
        obtain ⟨he, hrest⟩ := h
        subst he
        subst hrest
        simp [pqMeasure]
      · simp only [Option.some.injEq, Prod.mk.injEq] at h
        obtain ⟨he, hrest⟩ := h
        subst he
        subst hrest
        have hm := ih hx
        simp only [pqMeasure, List.map_cons, List.sum_cons] at hm ⊢
        omega

/-- Extraction returns an entry of the queue and keeps only entries of the
queue. -/
theorem extrMin_mem {pq : List (Int × KdNode)} {e : Int × KdNode}
    {rest : List (Int × KdNode)} (h : extrMin pq = some (e, rest)) :
    e ∈ pq ∧ ∀ x ∈ rest, x ∈ pq := by
  induction pq generalizing e rest with
  | nil => simp [extrMin] at h
  | cons x xs ih =>
    simp only [extrMin] at h
    split at h
    · simp only [Option.some.injEq, Prod.mk.injEq] at h
      obtain ⟨he, hrest⟩ := h
      subst he
      subst hrest
      simp
    · next m rest2 hx =>
      split at h
      · simp only [Option.some.injEq, Prod.mk.injEq] at h
        obtain ⟨he, hrest⟩ := h
        subst he
        subst hrest
        exact ⟨by simp, fun y hy => by simp [hy]⟩
      · simp only [Option.some.injEq, Prod.mk.injEq] at h
        obtain ⟨he, hrest⟩ := h
        subst he
        subst hrest
        obtain ⟨hm, hr⟩ := ih hx
        refine ⟨by simp [hm], ?_⟩
        intro y hy
        rcases List.mem_cons.1 hy with h1 | h2
        · simp [h1]
        · simp [hr y h2]

/-- Loop step: with a nonzero budget already exceeded, the loop halts at
once, leaving the state untouched. -/
theorem searchLoop_budget_halt (ctx : SearchCtx) (fuel : Nat) (st : Store)
    (h : ctx.maxPts ≠ 0 ∧ ctx.maxPts < st.visited) :
    searchLoop ctx (fuel + 1) st = some st := by
  simp [searchLoop, h]

/-- Loop step: an empty queue ends the loop with the state untouched. -/
theorem searchLoop_empty (ctx : SearchCtx) (fuel : Nat) (st : Store)
    (hb : ¬(ctx.maxPts ≠ 0 ∧ ctx.maxPts < st.visited)) (hx : extrMin st.pq = none) :
    searchLoop ctx (fuel + 1) st = some st := by
  simp [searchLoop, hb, hx]

/-- Loop step with one unit of fuel left: an empty queue still ends the
loop normally. -/
theorem searchLoop_one_empty (ctx : SearchCtx) (st : Store)
    (hb : ¬(ctx.maxPts ≠ 0 ∧ ctx.maxPts < st.visited)) (hx : extrMin st.pq = none) :
    searchLoop ctx 1 st = some st :=
  searchLoop_empty ctx 0 st hb hx

/-- Loop step: when the extracted minimum passes the error test, the loop
breaks before dispatching — the candidate set and the visited counter are
left untouched. -/
theorem searchLoop_break (ctx : SearchCtx) (fuel : Nat) (st : Store)
    (box_dist : Int) (np : KdNode) (rest : List (Int × KdNode))
    (hb : ¬(ctx.maxPts ≠ 0 ∧ ctx.maxPts < st.visited))
    (hx : extrMin st.pq = some ((box_dist, np), rest))
    (hpr : prTest box_dist ctx.maxErr st.pointMK = true) :
    searchLoop ctx (fuel + 1) st = some { st with pq := rest } := by
  simp [searchLoop, hb, hx, hpr]

/-- Loop step: otherwise the extracted node is dispatched and the loop
continues on the updated state. -/
theorem searchLoop_step (ctx : SearchCtx) (fuel : Nat) (st : Store)
    (box_dist : Int) (np : KdNode) (rest : List (Int × KdNode))
    (hb : ¬(ctx.maxPts ≠ 0 ∧ ctx.maxPts < st.visited))
    (hx : extrMin st.pq = some ((box_dist, np), rest))
    (hpr : ¬prTest box_dist ctx.maxErr st.pointMK = true) :
    searchLoop ctx (fuel + 1) st =
      searchLoop ctx fuel (annPriSearchNode ctx np box_dist { st with pq := rest }) := by
  simp [searchLoop, hb, hx, hpr]

/-- Fuel sufficiency: with more fuel than the queue's total subtree count,
the traversal loop reaches one of its own exits, never fuel exhaustion. -/
theorem searchLoop_isSome (ctx : SearchCtx) :
    ∀ fuel st, pqMeasure st.pq < fuel → (searchLoop ctx fuel st).isSome = true := by
  intro fuel
  induction fuel with
  | zero =>
    intro st h
    omega
  | succ fuel ih =>
    intro st h
    by_cases hb : ctx.maxPts ≠ 0 ∧ ctx.maxPts < st.visited
    · rw [searchLoop_budget_halt ctx fuel st hb]
      rfl
    · cases hx : extrMin st.pq with
      | none =>
        rw [searchLoop_empty ctx fuel st hb hx]
        rfl
      | some p =>
        obtain ⟨⟨box_dist, np⟩, rest⟩ := p
        by_cases hpr : prTest box_dist ctx.maxErr st.pointMK = true
        · rw [searchLoop_break ctx fuel st box_dist np rest hb hx hpr]
          rfl
        · rw [searchLoop_step ctx fuel st box_dist np rest hb hx hpr]
          apply ih
          have hm : pqMeasure st.pq = nodeSize np + pqMeasure rest := extrMin_measure hx
          obtain ⟨ex, hpq, hsz, _⟩ :=
            annPriSearchNode_pq ctx np box_dist { st with pq := rest }
          have hrest : ({ st with pq := rest } : Store).pq = rest := rfl
          rw [hrest] at hpq
          rw [hpq, pqMeasure_append]
          omega

/-- Mapping preserves definedness of an optional value. -/
theorem optionMap_isSome {A B : Type} (f : A → B) (o : Option A) :
    (o.map f).isSome = o.isSome := by
  cases o <;> rfl

/-- The search never fails: the fuel chosen by `annkPriSearch` always
suffices. -/
theorem annkPriSearch_isSome (t : ANNkd_tree) (q : List Int) (k : Nat)
    (eps : ℚ) (maxPts : Nat) : (annkPriSearch t q k eps maxPts).isSome = true := by
  simp only [annkPriSearch, optionMap_isSome]
  apply searchLoop_isSome
  simp [pqMeasure]

/-- Budget invariant: with a nonzero budget in force, if every queue entry
has buckets bounded by `B` and the count is within `maxPts + B`, the final
count stays within `maxPts + B` — iterations only start while the count is
within the budget, and each adds at most one bucket. -/
theorem searchLoop_visited_bound (ctx : SearchCtx) (B : Nat)
    (hmp : ctx.maxPts ≠ 0) :
    ∀ fuel st r, (∀ e ∈ st.pq, maxBucket e.2 ≤ B) →
      st.visited ≤ ctx.maxPts + B →
      searchLoop ctx fuel st = some r → r.visited ≤ ctx.maxPts + B := by
  intro fuel
  induction fuel with
  | zero =>
    intro st r _ _ h
    simp [searchLoop] at h
  | succ fuel ih =>
    intro st r hbk hv h
    by_cases hb : ctx.maxPts ≠ 0 ∧ ctx.maxPts < st.visited
    · rw [searchLoop_budget_halt ctx fuel st hb] at h
      cases h
      exact hv
    · cases hx : extrMin st.pq with
      | none =>
        rw [searchLoop_empty ctx fuel st hb hx] at h
        cases h
        exact hv
      | some p =>
        obtain ⟨⟨box_dist, np⟩, rest⟩ := p
        by_cases hpr : prTest box_dist ctx.maxErr st.pointMK = true
        · rw [searchLoop_break ctx fuel st box_dist np rest hb hx hpr] at h
          cases h
          exact hv
        · rw [searchLoop_step ctx fuel st box_dist np rest hb hx hpr] at h
          have hstv : st.visited ≤ ctx.maxPts := by
            rcases not_and_or.1 hb with h1 | h2
            · exact absurd hmp h1
            · omega
          obtain ⟨hmem, hrest⟩ := extrMin_mem hx
          obtain ⟨ex, hpq, _, hexbk⟩ :=
            annPriSearchNode_pq ctx np box_dist { st with pq := rest }
          have hrr : ({ st with pq := rest } : Store).pq = rest := rfl
          rw [hrr] at hpq
          apply ih _ r _ _ h
          · intro e he
            rw [hpq] at he
            rcases List.mem_append.1 he with h1 | h2
            · exact hbk e (hrest e h1)
            · exact le_trans (hexbk e h2) (hbk _ hmem)
          · have hb2 := annPriSearchNode_visited ctx np box_dist { st with pq := rest }
            have hvv : ({ st with pq := rest } : Store).visited = st.visited := rfl
            rw [hvv] at hb2
            have hnp : maxBucket np ≤ B := hbk _ hmem
            omega

/-- Each chunk adds a sum of squares, hence a nonnegative amount. -/
theorem chunkSum_nonneg (q pts : List Int) (base s : Nat) :
    0 ≤ chunkSum q pts base s := by
  apply List.sum_nonneg
  intro x hx
  simp only [List.mem_map] at hx
  obtain ⟨d2, _, hx⟩ := hx
  rw [← hx]
  exact mul_self_nonneg _

/-- A completed scan yields a nonnegative total that passed its final
pruning check, so it is at most the current bound. -/
theorem scanGo_some (q pts : List Int) (base : Nat) (md : Option Int) :
    ∀ (starts : List Nat) (dist dfin : Int),
      scanGo q pts base md starts dist = some dfin →
      (0 ≤ dist → 0 ≤ dfin) ∧ (starts ≠ [] → ∀ m, md = some m → dfin ≤ m) := by
  intro starts
  induction starts with
  | nil =>
    intro dist dfin h
    simp only [scanGo, Option.some.injEq] at h
    subst h
    exact ⟨fun h0 => h0, fun hne => absurd rfl hne⟩
  | cons s rest ih =>
    intro dist dfin h
    simp only [scanGo] at h
    by_cases hgt : distGtKey (dist + chunkSum q pts base s) md = true
    · rw [if_pos hgt] at h
      cases h
    · rw [if_neg hgt] at h
      have hnn : 0 ≤ dist → 0 ≤ dist + chunkSum q pts base s := by
        intro h0
        have := chunkSum_nonneg q pts base s
        omega
      cases rest with
      | nil =>
        simp only [scanGo, Option.some.injEq] at h
        subst h
        refine ⟨hnn, fun _ m hm => ?_⟩
        rw [hm] at hgt
        simp only [distGtKey, decide_eq_true_eq] at hgt
        omega
      | cons s2 r2 =>
        obtain ⟨h1, h2⟩ := ih _ _ h
        exact ⟨fun h0 => h1 (hnn h0), fun _ m hm => h2 (by simp) m hm⟩

/-- The leaf handler always advances the visited counter by the full bucket
size (the increment is unconditional in the source). -/
theorem leafSearch_visited (ctx : SearchCtx) (bkt : List Nat) (st : Store) :
    (leafSearch ctx bkt st).visited = st.visited + bkt.length := rfl

/-!
## Claims
-/

set_option maxRecDepth 100000 in
set_option maxHeartbeats 4000000 in
/-- C1: the claim states that for every tree over points of the index's
fixed dimension `D`, `annkPriSearch` with `eps = 0` and an unbounded budget
returns the `k` smallest squared Euclidean distances as computed by brute
force.  The code violates this: its leaf scan addresses points at stride
128 and sums exactly 128 axes regardless of the configured dimension.  On
the 132-dimensional index `c1tree` (query at the origin, `k = 1`), the
search returns squared distance 0 (point 0 restricted to its first 128
axes), while the brute-force nearest squared distance over all 132 axes is
100 — the returned distance list differs from the brute-force list. -/
theorem C1_exactness_code_bug :
    (annkPriSearch c1tree c1q 1 0 0).map SearchResult.dd = some [some 0] ∧
    bruteKSmallest c1tree.dim c1tree.n_pts 1 c1q c1tree.pts = [100] ∧
    (annkPriSearch c1tree c1q 1 0 0).map SearchResult.dd ≠
      some ((bruteKSmallest c1tree.dim c1tree.n_pts 1 c1q c1tree.pts).map Option.some) := by
  have h1 : (annkPriSearch c1tree c1q 1 0 0).map SearchResult.dd = some [some 0] := by
    decide
  have h2 : bruteKSmallest c1tree.dim c1tree.n_pts 1 c1q c1tree.pts = [100] := by
    decide
  refine ⟨h1, h2, ?_⟩
  rw [h1, h2]
  decide

set_option maxRecDepth 100000 in
set_option maxHeartbeats 4000000 in
/-- C2: the claim states the leaf handler accumulates the squared distance
across all `D` axes (the configured dimension) in fixed-size chunks with a
pruning check after each chunk.  The chunking and the per-chunk check are
real, but the number of axes summed is the constant 128 (4 chunks of 32),
not `D`: on the 256-dimensional point `c2pts`, the completed scan returns
the 128-axis distance 0, while the distance over the configured 256 axes is
128; and a chunk whose running sum exceeds the bound abandons the point. -/
theorem C2_scan_width_code_bug :
    scanPoint c2q c2pts 0 none = some (sqDistAt 128 c2q c2pts 0) ∧
    sqDistAt 128 c2q c2pts 0 = 0 ∧
    sqDistAt 256 c2q c2pts 0 = 128 ∧
    scanPoint c2q c2pts 128 (some 10) = none := by
  refine ⟨?_, ?_, ?_, ?_⟩ <;> decide

/-- A chunk of the scan of a stored point against an identical query
accumulates zero, provided the chunk lies within the stored coordinates. -/
theorem chunkSum_prefix_zero (p0 p1 : List Int) (h : p0.length = 128)
    (s : Nat) (hs : s + 32 ≤ 128) : chunkSum p0 (p0 ++ p1) 0 s = 0 := by
  unfold chunkSum
  apply List.sum_eq_zero
  intro x hx
  simp only [List.mem_map, List.mem_range] at hx
  obtain ⟨d2, hd2, hx⟩ := hx
  rw [← hx]
  have hlt : s + d2 < p0.length := by omega
  rw [Nat.zero_add, List.getD_append _ _ _ _ hlt]
  simp [ANN_POW]

/-- A point scanned against an identical query under an infinite bound
completes with distance zero. -/
theorem scanPoint_self (p0 p1 : List Int) (h : p0.length = 128) :
    scanPoint p0 (p0 ++ p1) 0 none = some 0 := by
  have h0 := chunkSum_prefix_zero p0 p1 h 0 (by omega)
  have h32 := chunkSum_prefix_zero p0 p1 h 32 (by omega)
  have h64 := chunkSum_prefix_zero p0 p1 h 64 (by omega)
  have h96 := chunkSum_prefix_zero p0 p1 h 96 (by omega)
  simp [scanPoint, scanGo, h0, h32, h64, h96, distGtKey]

/-- Scanning the two-point bucket when the query coincides with point 0:
point 0 is inserted at distance 0, and point 1 — abandoned or completed at
distance 0 — never displaces it. -/
theorem leafGo_twoPoint (p0 p1 : List Int) (h : p0.length = 128) :
    leafGo p0 (p0 ++ p1) [0, 1] (MinK.empty 1) (MinK.empty 1).max_key =
      (⟨1, [(0, 0)]⟩ : MinK) := by
  have hempty : (MinK.empty 1).max_key = none := rfl
  have hscan := scanPoint_self p0 p1 h
  have hmk2 : (MinK.empty 1).insert 0 0 = (⟨1, [(0, 0)]⟩ : MinK) := rfl
  have hmax : ((⟨1, [(0, 0)]⟩ : MinK)).max_key = some 0 := rfl
  have h1 : leafGo p0 (p0 ++ p1) [0, 1] (MinK.empty 1) (MinK.empty 1).max_key =
      leafGo p0 (p0 ++ p1) [1] ⟨1, [(0, 0)]⟩ (some 0) := by
    rw [hempty]
    simp only [leafGo, Nat.zero_mul, hscan, hmk2, hmax]
  rw [h1]
  cases hs : scanPoint p0 (p0 ++ p1) (1 * 128) (some 0) with
  | none => simp [leafGo, hs]
  | some d =>
    have hd : d = 0 := by
      have hb := scanGo_some p0 (p0 ++ p1) (1 * 128) (some 0) [0, 32, 64, 96] 0 d hs
      obtain ⟨hpos, hle⟩ := hb
      have h1 := hpos le_rfl
      have h2 := hle (by simp) 0 rfl
      omega
    subst hd
    simp only [leafGo, hs]
    rfl

set_option maxRecDepth 100000 in
set_option maxHeartbeats 4000000 in
/-- C4: the claim states that with self-matching disabled, a `k = 1` query
equal to stored point 0 over a 2-point set returns the other point, never
point 0.  The code's self-match test is commented out, so the zero-distance
self-match is inserted and returned: on the concrete 2-point index the
returned index list is `[0]`, not `[1]`. -/
theorem C4_counterexample :
    (annkPriSearch (twoPointLeafTree c4p0 c4p1) c4p0 1 0 0).map SearchResult.nn_idx ≠
      some [some 1] := by
  decide

/-- C4 (amended): with the self-match test absent, a `k = 1` search whose
query coincides with stored point 0 of a two-point leaf (128-coordinate
layout, as the scan assumes) returns point 0 itself at squared distance 0 —
the zero-distance self-match is not excluded — and visits both points. -/
theorem C4_self_match_returned (p0 p1 : List Int) (h : p0.length = 128) :
    annkPriSearch (twoPointLeafTree p0 p1) p0 1 0 0 =
      some { dd := [some 0], nn_idx := [some 0], visited := 2 } := by
  have hleaf := leafGo_twoPoint p0 p1 h
  simp only [annkPriSearch, twoPointLeafTree]
  generalize annBoxDistance p0 p0 p0 128 = b
  have hns : nodeSize (KdNode.leaf [0, 1]) = 1 := rfl
  rw [hns]
  have hctx : ∀ st1 : Store, searchLoop
      { q := p0, pts := p0 ++ p1, dim := 128, maxErr := ANN_POW (1 + 0), maxPts := 0 }
      (1 + 1) st1 =
      searchLoop
      { q := p0, pts := p0 ++ p1, dim := 128, maxErr := ANN_POW (1 + 0), maxPts := 0 }
      (1 + 1) st1 := fun _ => rfl
  rw [searchLoop_step
      { q := p0, pts := p0 ++ p1, dim := 128, maxErr := ANN_POW (1 + 0), maxPts := 0 }
      1 { pointMK := MinK.empty 1, pq := [(b, KdNode.leaf [0, 1])], visited := 0 }
      b (KdNode.leaf [0, 1]) [] (by simp) rfl (by simp [prTest, MinK.empty, MinK.max_key])]
  change Option.map _ (searchLoop _ 1 (annPriSearchNode _ (KdNode.leaf [0, 1]) b
      { pointMK := MinK.empty 1, pq := [], visited := 0 })) = _
  have hnode : annPriSearchNode
      { q := p0, pts := p0 ++ p1, dim := 128, maxErr := ANN_POW (1 + 0), maxPts := 0 }
      (KdNode.leaf [0, 1]) b
      { pointMK := MinK.empty 1, pq := [], visited := 0 } =
      { pointMK := leafGo p0 (p0 ++ p1) [0, 1] (MinK.empty 1) (MinK.empty 1).max_key,
        pq := [], visited := 2 } := rfl
  rw [hnode, hleaf]
  rw [searchLoop_one_empty
      { q := p0, pts := p0 ++ p1, dim := 128, maxErr := ANN_POW (1 + 0), maxPts := 0 }
      { pointMK := ⟨1, [(0, 0)]⟩, pq := [], visited := 2 } (by simp) rfl]
  rfl

/-- Witness for `C4_self_match_returned` at the concrete scenario points. -/
theorem C4_self_match_returned_witness :
    c4p0.length = 128 ∧
    annkPriSearch (twoPointLeafTree c4p0 c4p1) c4p0 1 0 0 =
      some { dd := [some 0], nn_idx := [some 0], visited := 2 } :=
  ⟨by simp [c4p0], C4_self_match_returned c4p0 c4p1 (by simp [c4p0])⟩

/-- Clamping at zero by a sign test is the max with zero. -/
theorem if_neg_clamp (x : Int) : (if x < 0 then 0 else x) = max 0 x := by
  by_cases hx : x < 0
  · rw [if_pos hx, max_eq_left (le_of_lt hx)]
  · rw [if_neg hx, max_eq_right (le_of_not_lt hx)]

/-- C3: in the split handler, when `cutDiff = q[cutAxis] − cutValue < 0`,
the farther (high) child is enqueued with priority
`boxDist − cutDiff² + boxDiff²` where `boxDiff = max 0 (nodeLowBound −
q[cutAxis])`; symmetrically when `cutDiff ≥ 0` the low child is enqueued
with `boxDiff = max 0 (q[cutAxis] − nodeHighBound)`.  The enqueued entry is
in the box queue after the handler returns. -/
theorem C3_farther_child_priority (ctx : SearchCtx) (cut_dim : Nat)
    (cut_val bnd_lo bnd_hi : Int) (lo hi : KdNode) (box_dist : Int) (st : Store) :
    (ctx.q.getD cut_dim 0 - cut_val < 0 → hi ≠ KdNode.trivial →
      (box_dist - (ctx.q.getD cut_dim 0 - cut_val) ^ 2 +
          (max 0 (bnd_lo - ctx.q.getD cut_dim 0)) ^ 2, hi) ∈
        (annPriSearchNode ctx (.split cut_dim cut_val bnd_lo bnd_hi lo hi)
          box_dist st).pq) ∧
    (0 ≤ ctx.q.getD cut_dim 0 - cut_val → lo ≠ KdNode.trivial →
      (box_dist - (ctx.q.getD cut_dim 0 - cut_val) ^ 2 +
          (max 0 (ctx.q.getD cut_dim 0 - bnd_hi)) ^ 2, lo) ∈
        (annPriSearchNode ctx (.split cut_dim cut_val bnd_lo bnd_hi lo hi)
          box_dist st).pq) := by
  constructor
  · intro hcd hhi
    rw [annPriSearchNode_split_lt ctx cut_dim cut_val bnd_lo bnd_hi lo hi box_dist st hcd,
      if_pos hhi]
    have heq : ANN_SUM box_dist (ANN_DIFF
        (ANN_POW (if bnd_lo - ctx.q.getD cut_dim 0 < 0 then 0
          else bnd_lo - ctx.q.getD cut_dim 0))
        (ANN_POW (ctx.q.getD cut_dim 0 - cut_val))) =
        box_dist - (ctx.q.getD cut_dim 0 - cut_val) ^ 2 +
          (max 0 (bnd_lo - ctx.q.getD cut_dim 0)) ^ 2 := by
      rw [if_neg_clamp]
      simp only [ANN_SUM, ANN_DIFF, ANN_POW]
      ring
    rw [heq]
    obtain ⟨ex, hpq, _, _⟩ := annPriSearchNode_pq ctx lo box_dist
      { st with pq := st.pq ++ [(box_dist - (ctx.q.getD cut_dim 0 - cut_val) ^ 2 +
          (max 0 (bnd_lo - ctx.q.getD cut_dim 0)) ^ 2, hi)] }
    rw [hpq]
    refine List.mem_append_left _ ?_
    show _ ∈ st.pq ++ [(box_dist - (ctx.q.getD cut_dim 0 - cut_val) ^ 2 +
        (max 0 (bnd_lo - ctx.q.getD cut_dim 0)) ^ 2, hi)]
    exact List.mem_append_right _ (by simp)
  · intro hcd hlo
    have hcd2 : ¬(ctx.q.getD cut_dim 0 - cut_val < 0) := not_lt.2 hcd
    rw [annPriSearchNode_split_ge ctx cut_dim cut_val bnd_lo bnd_hi lo hi box_dist st hcd2,
      if_pos hlo]
    have heq : ANN_SUM box_dist (ANN_DIFF
        (ANN_POW (if ctx.q.getD cut_dim 0 - bnd_hi < 0 then 0
          else ctx.q.getD cut_dim 0 - bnd_hi))
        (ANN_POW (ctx.q.getD cut_dim 0 - cut_val))) =
        box_dist - (ctx.q.getD cut_dim 0 - cut_val) ^ 2 +
          (max 0 (ctx.q.getD cut_dim 0 - bnd_hi)) ^ 2 := by
      rw [if_neg_clamp]
      simp only [ANN_SUM, ANN_DIFF, ANN_POW]
      ring
    rw [heq]
    obtain ⟨ex, hpq, _, _⟩ := annPriSearchNode_pq ctx hi box_dist
      { st with pq := st.pq ++ [(box_dist - (ctx.q.getD cut_dim 0 - cut_val) ^ 2 +
          (max 0 (ctx.q.getD cut_dim 0 - bnd_hi)) ^ 2, lo)] }
    rw [hpq]
    refine List.mem_append_left _ ?_
    show _ ∈ st.pq ++ [(box_dist - (ctx.q.getD cut_dim 0 - cut_val) ^ 2 +
        (max 0 (ctx.q.getD cut_dim 0 - bnd_hi)) ^ 2, lo)]
    exact List.mem_append_right _ (by simp)

/-- Witness for `C3_farther_child_priority`: one query left of the cut at a
split with both children real leaves, and one query right of it. -/
theorem C3_farther_child_priority_witness :
    ((10 : Int) - ((5 : Int) - 7) ^ 2 + (max 0 ((6 : Int) - 5)) ^ 2, KdNode.leaf [3]) ∈
      (annPriSearchNode ⟨[5], [], 1, 1, 0⟩
        (.split 0 7 6 9 (.leaf [2]) (.leaf [3])) 10 ⟨MinK.empty 1, [], 0⟩).pq ∧
    ((10 : Int) - ((8 : Int) - 7) ^ 2 + (max 0 ((8 : Int) - 9)) ^ 2, KdNode.leaf [2]) ∈
      (annPriSearchNode ⟨[8], [], 1, 1, 0⟩
        (.split 0 7 6 9 (.leaf [2]) (.leaf [3])) 10 ⟨MinK.empty 1, [], 0⟩).pq :=
  ⟨(C3_farther_child_priority ⟨[5], [], 1, 1, 0⟩ 0 7 6 9 (.leaf [2]) (.leaf [3]) 10
      ⟨MinK.empty 1, [], 0⟩).1 (by decide) (by decide),
   (C3_farther_child_priority ⟨[8], [], 1, 1, 0⟩ 0 7 6 9 (.leaf [2]) (.leaf [3]) 10
      ⟨MinK.empty 1, [], 0⟩).2 (by decide) (by decide)⟩

/-- C5: with `errorFactor = (1+ε)²`, an extraction whose box distance
satisfies `boxDist * errorFactor ≥ max_key` ends the loop at once: the
extracted node is not dispatched — the candidate set and the visited
counter are returned untouched, only the extracted entry leaves the
queue. -/
theorem C5_termination_no_dispatch (eps : ℚ) (ctx : SearchCtx) (fuel : Nat)
    (st : Store) (box_dist : Int) (np : KdNode) (rest : List (Int × KdNode))
    (heps : ctx.maxErr = ANN_POW (1 + eps))
    (hb : ¬(ctx.maxPts ≠ 0 ∧ ctx.maxPts < st.visited))
    (hx : extrMin st.pq = some ((box_dist, np), rest))
    (v : Int) (hv : st.pointMK.max_key = some v)
    (hge : (v : ℚ) ≤ (box_dist : ℚ) * ANN_POW (1 + eps)) :
    searchLoop ctx (fuel + 1) st = some { st with pq := rest } := by
  apply searchLoop_break ctx fuel st box_dist np rest hb hx
  rw [prTest, hv, heps]
  simpa using hge

/-- Witness for `C5_termination_no_dispatch`: a full candidate set with
worst key 2 and an extracted box at distance 3 ≥ 2. -/
theorem C5_termination_no_dispatch_witness :
    searchLoop ⟨[], [], 1, ANN_POW (1 + 0), 0⟩ 1
      ⟨⟨1, [(2, 0)]⟩, [(3, KdNode.leaf [0])], 0⟩ =
      some ⟨⟨1, [(2, 0)]⟩, [], 0⟩ :=
  C5_termination_no_dispatch 0 ⟨[], [], 1, ANN_POW (1 + 0), 0⟩ 0
    ⟨⟨1, [(2, 0)]⟩, [(3, KdNode.leaf [0])], 0⟩ 3 (KdNode.leaf [0]) []
    rfl (by decide) rfl 2 rfl (by norm_num [ANN_POW])

/-- C6: at a split node the nearer child is handled by an immediate
recursive call — never placed on the priority queue by the handler — with
the parent's box distance unchanged, while the farther child is enqueued
exactly when it is not the trivial sentinel. -/
theorem C6_near_child_immediate (ctx : SearchCtx) (cut_dim : Nat)
    (cut_val bnd_lo bnd_hi : Int) (lo hi : KdNode) (box_dist : Int) (st : Store) :
    (ctx.q.getD cut_dim 0 - cut_val < 0 →
      ∃ stMid, annPriSearchNode ctx (.split cut_dim cut_val bnd_lo bnd_hi lo hi)
          box_dist st = annPriSearchNode ctx lo box_dist stMid ∧
        stMid.pointMK = st.pointMK ∧ stMid.visited = st.visited ∧
        stMid.pq = st.pq ++ (if hi = KdNode.trivial then [] else
          [(ANN_SUM box_dist (ANN_DIFF
              (ANN_POW (max 0 (bnd_lo - ctx.q.getD cut_dim 0)))
              (ANN_POW (ctx.q.getD cut_dim 0 - cut_val))), hi)])) ∧
    (0 ≤ ctx.q.getD cut_dim 0 - cut_val →
      ∃ stMid, annPriSearchNode ctx (.split cut_dim cut_val bnd_lo bnd_hi lo hi)
          box_dist st = annPriSearchNode ctx hi box_dist stMid ∧
        stMid.pointMK = st.pointMK ∧ stMid.visited = st.visited ∧
        stMid.pq = st.pq ++ (if lo = KdNode.trivial then [] else
          [(ANN_SUM box_dist (ANN_DIFF
              (ANN_POW (max 0 (ctx.q.getD cut_dim 0 - bnd_hi)))
              (ANN_POW (ctx.q.getD cut_dim 0 - cut_val))), lo)])) := by
  constructor
  · intro hcd
    rw [annPriSearchNode_split_lt ctx cut_dim cut_val bnd_lo bnd_hi lo hi box_dist st hcd]
    by_cases hhi : hi = KdNode.trivial
    · refine ⟨st, ?_, rfl, rfl, by simp [hhi]⟩
      rw [if_neg (not_not_intro hhi)]
    · rw [if_pos hhi]
      refine ⟨_, rfl, rfl, rfl, ?_⟩
      show st.pq ++ [(ANN_SUM box_dist (ANN_DIFF
          (ANN_POW (if bnd_lo - ctx.q.getD cut_dim 0 < 0 then 0
            else bnd_lo - ctx.q.getD cut_dim 0))
          (ANN_POW (ctx.q.getD cut_dim 0 - cut_val))), hi)] =
        st.pq ++ (if hi = KdNode.trivial then [] else
          [(ANN_SUM box_dist (ANN_DIFF
              (ANN_POW (max 0 (bnd_lo - ctx.q.getD cut_dim 0)))
              (ANN_POW (ctx.q.getD cut_dim 0 - cut_val))), hi)])
      rw [if_neg hhi, if_neg_clamp]
  · intro hcd
    have hcd2 : ¬(ctx.q.getD cut_dim 0 - cut_val < 0) := not_lt.2 hcd
    rw [annPriSearchNode_split_ge ctx cut_dim cut_val bnd_lo bnd_hi lo hi box_dist st hcd2]
    by_cases hlo : lo = KdNode.trivial
    · refine ⟨st, ?_, rfl, rfl, by simp [hlo]⟩
      rw [if_neg (not_not_intro hlo)]
    · rw [if_pos hlo]
      refine ⟨_, rfl, rfl, rfl, ?_⟩
      show st.pq ++ [(ANN_SUM box_dist (ANN_DIFF
          (ANN_POW (if ctx.q.getD cut_dim 0 - bnd_hi < 0 then 0
            else ctx.q.getD cut_dim 0 - bnd_hi))
          (ANN_POW (ctx.q.getD cut_dim 0 - cut_val))), lo)] =
        st.pq ++ (if lo = KdNode.trivial then [] else
          [(ANN_SUM box_dist (ANN_DIFF
              (ANN_POW (max 0 (ctx.q.getD cut_dim 0 - bnd_hi)))
              (ANN_POW (ctx.q.getD cut_dim 0 - cut_val))), lo)])
      rw [if_neg hlo, if_neg_clamp]

/-- Witness for `C6_near_child_immediate`: one query on each side of the
cut, both children real leaves. -/
theorem C6_near_child_immediate_witness :
    (∃ stMid, annPriSearchNode ⟨[5], [], 1, 1, 0⟩
        (.split 0 7 6 9 (.leaf [2]) (.leaf [3])) 10 ⟨MinK.empty 1, [], 0⟩ =
        annPriSearchNode ⟨[5], [], 1, 1, 0⟩ (.leaf [2]) 10 stMid ∧
      stMid.pointMK = (⟨MinK.empty 1, [], 0⟩ : Store).pointMK ∧
      stMid.visited = (⟨MinK.empty 1, [], 0⟩ : Store).visited ∧
      stMid.pq = (⟨MinK.empty 1, [], 0⟩ : Store).pq ++
        (if KdNode.leaf [3] = KdNode.trivial then [] else
          [(ANN_SUM 10 (ANN_DIFF (ANN_POW (max 0 (6 - ([5] : List Int).getD 0 0)))
              (ANN_POW (([5] : List Int).getD 0 0 - 7))), KdNode.leaf [3])])) ∧
    (∃ stMid, annPriSearchNode ⟨[8], [], 1, 1, 0⟩
        (.split 0 7 6 9 (.leaf [2]) (.leaf [3])) 10 ⟨MinK.empty 1, [], 0⟩ =
        annPriSearchNode ⟨[8], [], 1, 1, 0⟩ (.leaf [3]) 10 stMid ∧
      stMid.pointMK = (⟨MinK.empty 1, [], 0⟩ : Store).pointMK ∧
      stMid.visited = (⟨MinK.empty 1, [], 0⟩ : Store).visited ∧
      stMid.pq = (⟨MinK.empty 1, [], 0⟩ : Store).pq ++
        (if KdNode.leaf [2] = KdNode.trivial then [] else
          [(ANN_SUM 10 (ANN_DIFF (ANN_POW (max 0 (([8] : List Int).getD 0 0 - 9)))
              (ANN_POW (([8] : List Int).getD 0 0 - 7))), KdNode.leaf [2])])) :=
  ⟨(C6_near_child_immediate ⟨[5], [], 1, 1, 0⟩ 0 7 6 9 (.leaf [2]) (.leaf [3]) 10
      ⟨MinK.empty 1, [], 0⟩).1 (by decide),
   (C6_near_child_immediate ⟨[8], [], 1, 1, 0⟩ 0 7 6 9 (.leaf [2]) (.leaf [3]) 10
      ⟨MinK.empty 1, [], 0⟩).2 (by decide)⟩

set_option maxRecDepth 100000 in
set_option maxHeartbeats 4000000 in
/-- C7: the claim states that `k ≤ 0` or an empty tree fails with
InvalidArgument before any traversal.  The code performs no such
validation: with `k = 0` on a one-point index the search still runs the
traversal — the leaf is dispatched and its point is visited, so the final
visited count is 1, not the 0 an aborted call would leave. -/
theorem C7_counterexample :
    ¬ ((annkPriSearch c7tree c7q 0 0 0).map SearchResult.visited = some 0) := by
  decide

set_option maxRecDepth 100000 in
set_option maxHeartbeats 4000000 in
/-- C7 (amended): `annkPriSearch` validates neither `k` nor tree emptiness
and cannot fail — for every index and query it returns a result even with
`k = 0` — and the traversal still runs: on the one-point index the leaf is
scanned and the visited count is 1. -/
theorem C7_no_validation :
    (∀ (t : ANNkd_tree) (q : List Int) (eps : ℚ) (maxPts : Nat),
      (annkPriSearch t q 0 eps maxPts).isSome = true) ∧
    (annkPriSearch c7tree c7q 0 0 0).map SearchResult.visited = some 1 := by
  constructor
  · intro t q eps maxPts
    exact annkPriSearch_isSome t q 0 eps maxPts
  · decide

/-- C9: processing a leaf increases the visited-point counter by exactly
the bucket size, regardless of which bucket points the chunked distance
check abandoned — the increment is a single unconditional statement after
the scan loop. -/
theorem C9_visited_full_bucket (ctx : SearchCtx) (bkt : List Nat)
    (box_dist : Int) (st : Store) :
    (annPriSearchNode ctx (KdNode.leaf bkt) box_dist st).visited =
      st.visited + bkt.length := rfl

/-- C8: for every positive visited-point budget the search terminates
normally (the fuel bound shows the loop exits on its own) and still writes
`k` distance entries and `k` index entries; and a budget of 0 imposes no
bound on point visitation — with budget 0 a single-leaf index of `m` points
has all `m` points visited, for every `m`. -/
theorem C8_budget_best_effort :
    (∀ (t : ANNkd_tree) (q : List Int) (k : Nat) (eps : ℚ) (B : Nat), 0 < B →
      ∃ r, annkPriSearch t q k eps B = some r ∧
        r.dd.length = k ∧ r.nn_idx.length = k) ∧
    (∀ m : Nat, ∃ r, annkPriSearch (bigLeafTree m) [] 1 0 0 = some r ∧
      r.visited = m) := by
  constructor
  · intro t q k eps B hB
    have hs := annkPriSearch_isSome t q k eps B
    cases ho : annkPriSearch t q k eps B with
    | none =>
      rw [ho] at hs
      simp at hs
    | some r =>
      refine ⟨r, rfl, ?_⟩
      have ho2 := ho
      simp only [annkPriSearch] at ho2
      rw [Option.map_eq_some'] at ho2
      obtain ⟨st, hst, hr⟩ := ho2
      rw [← hr]
      constructor <;> simp
  · intro m
    simp only [annkPriSearch, bigLeafTree]
    generalize annBoxDistance [] [] [] 128 = b
    have hns : nodeSize (KdNode.leaf (List.range m)) = 1 := rfl
    rw [hns]
    rw [searchLoop_step
        { q := [], pts := [], dim := 128, maxErr := ANN_POW (1 + 0), maxPts := 0 }
        1 { pointMK := MinK.empty 1, pq := [(b, KdNode.leaf (List.range m))], visited := 0 }
        b (KdNode.leaf (List.range m)) [] (by simp) rfl
        (by simp [prTest, MinK.empty, MinK.max_key])]
    change ∃ r, Option.map _ (searchLoop _ 1 (annPriSearchNode _
        (KdNode.leaf (List.range m)) b
        { pointMK := MinK.empty 1, pq := [], visited := 0 })) = some r ∧ r.visited = m
    have hnode : annPriSearchNode
        { q := [], pts := [], dim := 128, maxErr := ANN_POW (1 + 0), maxPts := 0 }
        (KdNode.leaf (List.range m)) b
        { pointMK := MinK.empty 1, pq := [], visited := 0 } =
        { pointMK := leafGo [] [] (List.range m) (MinK.empty 1) (MinK.empty 1).max_key,
          pq := [], visited := 0 + (List.range m).length } := rfl
    rw [hnode]
    rw [searchLoop_one_empty
        { q := [], pts := [], dim := 128, maxErr := ANN_POW (1 + 0), maxPts := 0 }
        { pointMK := leafGo [] [] (List.range m) (MinK.empty 1) (MinK.empty 1).max_key,
          pq := [], visited := 0 + (List.range m).length } (by simp) rfl]
    refine ⟨_, rfl, ?_⟩
    simp

/-- Witness for `C8_budget_best_effort`: budget 1 on the one-point index
still yields one distance and one index entry. -/
theorem C8_budget_best_effort_witness :
    ∃ r, annkPriSearch c7tree c7q 1 0 1 = some r ∧
      r.dd.length = 1 ∧ r.nn_idx.length = 1 :=
  C8_budget_best_effort.1 c7tree c7q 1 0 1 (by decide)

/-- C10: with a nonzero budget, the loop halts on budget grounds exactly
when the visited count strictly exceeds the budget — it runs another
iteration whenever the count is still within it — and since a whole bucket
is added only after a leaf is processed, the final count can overshoot the
budget by at most the largest bucket of the tree. -/
theorem C10_budget_overshoot :
    (∀ (ctx : SearchCtx) (fuel : Nat) (st : Store), ctx.maxPts ≠ 0 →
      ctx.maxPts < st.visited → searchLoop ctx (fuel + 1) st = some st) ∧
    (∀ (ctx : SearchCtx) (fuel : Nat) (st : Store) (box_dist : Int) (np : KdNode)
        (rest : List (Int × KdNode)), ctx.maxPts ≠ 0 → st.visited ≤ ctx.maxPts →
      extrMin st.pq = some ((box_dist, np), rest) →
      searchLoop ctx (fuel + 1) st =
        (if prTest box_dist ctx.maxErr st.pointMK then some { st with pq := rest }
         else searchLoop ctx fuel
           (annPriSearchNode ctx np box_dist { st with pq := rest }))) ∧
    (∀ (t : ANNkd_tree) (q : List Int) (k : Nat) (eps : ℚ) (B : Nat), B ≠ 0 →
      ∀ r, annkPriSearch t q k eps B = some r →
        r.visited ≤ B + maxBucket t.root) := by
  refine ⟨?_, ?_, ?_⟩
  · intro ctx fuel st hmp hlt
    exact searchLoop_budget_halt ctx fuel st ⟨hmp, hlt⟩
  · intro ctx fuel st box_dist np rest hmp hle hx
    have hb : ¬(ctx.maxPts ≠ 0 ∧ ctx.maxPts < st.visited) := by
      rintro ⟨_, h2⟩
      omega
    by_cases hpr : prTest box_dist ctx.maxErr st.pointMK = true
    · rw [searchLoop_break ctx fuel st box_dist np rest hb hx hpr, if_pos hpr]
    · rw [searchLoop_step ctx fuel st box_dist np rest hb hx hpr, if_neg hpr]
  · intro t q k eps B hB r hr
    simp only [annkPriSearch] at hr
    rw [Option.map_eq_some'] at hr
    obtain ⟨st, hst, hrr⟩ := hr
    have hv : r.visited = st.visited := by
      rw [← hrr]
    have hbound := searchLoop_visited_bound
      { q := q, pts := t.pts, dim := t.dim, maxErr := ANN_POW (1 + eps), maxPts := B }
      (maxBucket t.root) hB (nodeSize t.root + 1)
      { pointMK := MinK.empty k,
        pq := [(annBoxDistance q t.bnd_box_lo t.bnd_box_hi t.dim, t.root)], visited := 0 }
      st ?_ ?_ hst
    · rw [hv]
      exact hbound
    · intro e he
      rw [List.mem_singleton.1 he]
    · exact Nat.zero_le _

/-- Witness for `C10_budget_overshoot`: a budget of 5 already exceeded by a
count of 6 halts at once; one within budget proceeds to the extraction
step; and on the one-point index with budget 1 the final count 1 is within
budget plus one bucket. -/
theorem C10_budget_overshoot_witness :
    searchLoop ⟨[], [], 1, 1, 5⟩ 1 ⟨MinK.empty 1, [], 6⟩ =
      some ⟨MinK.empty 1, [], 6⟩ ∧
    searchLoop ⟨[], [], 1, 1, 5⟩ 1 ⟨MinK.empty 1, [(2, KdNode.trivial)], 3⟩ =
      (if prTest 2 1 (MinK.empty 1) then some ⟨MinK.empty 1, [], 3⟩
       else searchLoop ⟨[], [], 1, 1, 5⟩ 0
         (annPriSearchNode ⟨[], [], 1, 1, 5⟩ KdNode.trivial 2
           ⟨MinK.empty 1, [], 3⟩)) ∧
    (⟨[some 0], [some 0], 1⟩ : SearchResult).visited ≤ 1 + maxBucket c7tree.root :=
  ⟨C10_budget_overshoot.1 ⟨[], [], 1, 1, 5⟩ 0 ⟨MinK.empty 1, [], 6⟩
      (by decide) (by decide),
   C10_budget_overshoot.2.1 ⟨[], [], 1, 1, 5⟩ 0 ⟨MinK.empty 1, [(2, KdNode.trivial)], 3⟩
      2 KdNode.trivial [] (by decide) (by decide) rfl,
   C10_budget_overshoot.2.2 c7tree c7q 1 0 1 (by decide) ⟨[some 0], [some 0], 1⟩
      (by decide)⟩
